import Mathlib

/-!
# Politibot — verification of the Scoring & Signal Engine and the Position Manager

Shallow embedding of the core logic of the repository:
* `data/fetcher.py` — the `PoliticianTrade` record and its derived predicates;
* `scoring/engine.py` — `PoliticianScorer`, `TradeScorer`, `ClusterDetector`,
  `SignalEngine.generate_signals`;
* `execution/trader.py` — `PolitibotTrader.execute_signal` and
  `PolitibotTrader.update_positions`;
* `main.py` — the size-multiplier lookup of `PaperTrader.try_buy`.

Modelling conventions:
* Python floats are modelled as exact rationals (`ℚ`); amounts as `ℤ`.
* Python `round(x, n)` (round to `n` decimal places) is modelled as
  `pyRound n x`, rounding to the nearest multiple of `10⁻ⁿ` (ties produced by
  Mathlib's `round`, i.e. half-up; no property proved below depends on the
  direction of ties).
* Python `int(x)` (truncation toward zero) is modelled as `pyInt`.
* Calendar dates are modelled as integer day numbers (`ℤ`); `date.today()`
  becomes an explicit `today` parameter.
* The impure price lookups (`_get_price` / yfinance / Alpaca) are modelled as
  an oracle `String → Option ℚ`; the `dict` of current prices passed to
  `update_positions` likewise.
* Python `dict`s (insertion ordered) are modelled as association lists;
  `uuid`/timestamps/order ids and logging are I/O metadata and are omitted.
-/

/-- Characters of a string, lower-cased (model of Python `str.lower()` for the
ASCII strings occurring in the repository). -/
def lowerChars (s : String) : List Char :=
  s.data.map Char.toLower

/-- `containsSubstring n h` holds iff `n` occurs contiguously inside `h`
(model of Python's `n in h` on strings). -/
def containsSubstring (needle : List Char) : List Char → Bool
  | [] => needle.isEmpty
  | c :: cs => needle.isPrefixOf (c :: cs) || containsSubstring needle cs

/-- Python `int(x)`: truncation of a rational toward zero. -/
def pyInt (x : ℚ) : ℤ :=
  Int.tdiv x.num x.den

/-- Python `round(x, d)`: round to `d` decimal places (tie direction: half-up;
see the module docstring). -/
def pyRound (d : ℕ) (x : ℚ) : ℚ :=
  ((round (x * 10 ^ d) : ℤ) : ℚ) / 10 ^ d

/-- One disclosed congressional trade (`data/fetcher.py`, `PoliticianTrade`).
Fields not used by any scoring/trading decision (`trade_id`, `chamber`,
`party`, `state`, `asset_name`, `disclosure_date`, `notes`) are omitted. -/
structure PoliticianTrade where
  politician : String
  symbol : String
  trade_type : String
  amount_low : ℤ
  amount_high : ℤ
  transaction_date : ℤ
  filing_delay_days : ℤ
  is_option : Bool
  committee : String
deriving DecidableEq, Repr

/-- `PoliticianTrade.avg_amount`: `(amount_low + amount_high) // 2`
(Python floor division). -/
def PoliticianTrade.avg_amount (t : PoliticianTrade) : ℤ :=
  Int.fdiv (t.amount_low + t.amount_high) 2

/-- `PoliticianTrade.is_late`: filing delay greater than 45 days. -/
def PoliticianTrade.is_late (t : PoliticianTrade) : Bool :=
  45 < t.filing_delay_days

/-- `PoliticianTrade.is_suspiciously_late`: filing delay greater than 90 days. -/
def PoliticianTrade.is_suspiciously_late (t : PoliticianTrade) : Bool :=
  90 < t.filing_delay_days

/-- `"purchase" in trade.trade_type.lower()`. -/
def isPurchase (t : PoliticianTrade) : Bool :=
  containsSubstring "purchase".data (lowerChars t.trade_type)

/-- `POLITICIAN_PROFILES` (`scoring/engine.py`): the `historical_alpha` field
of the static profile table, `none` for names absent from the table. -/
def historical_alpha (p : String) : Option ℚ :=
  if p = "Nancy Pelosi" then some (92/100)
  else if p = "Dan Crenshaw" then some (71/100)
  else if p = "Tommy Tuberville" then some (68/100)
  else if p = "Josh Gottheimer" then some (65/100)
  else if p = "Michael McCaul" then some (60/100)
  else none

/-- `COMMITTEE_SECTOR_MAP` (`scoring/engine.py`): committee name → list of
ticker symbols; unknown committees (and the empty committee) map to `[]`,
mirroring `COMMITTEE_SECTOR_MAP.get(c, [])`. -/
def COMMITTEE_SECTOR_MAP (c : String) : List String :=
  if c = "Armed Services" then
    ["LMT", "RTX", "NOC", "BA", "GD", "HII", "LDOS", "CACI", "SAIC"]
  else if c = "Financial Services" then
    ["JPM", "BAC", "GS", "MS", "V", "MA", "SQ", "PYPL"]
  else if c = "Banking" then ["JPM", "BAC", "WFC", "C", "USB", "PNC"]
  else if c = "Energy and Commerce" then ["UNH", "CVS", "CI", "HUM", "CNC"]
  else if c = "Science, Space, and Technology" then
    ["NVDA", "AMD", "INTC", "MSFT", "GOOGL", "META"]
  else if c = "Energy" then ["XOM", "CVX", "COP", "SLB", "HAL", "EOG"]
  else if c = "Agriculture" then ["DE", "ADM", "BG", "MOS", "NTR"]
  else []

/-- `sum(1 for t in trades_history if t.is_late and t.politician == politician)`
(`PoliticianScorer.score`). -/
def lateFilings (politician : String) (hist : List PoliticianTrade) : ℕ :=
  (hist.filter (fun t => t.is_late && t.politician == politician)).length

/-- `PoliticianScorer.score` (`scoring/engine.py` lines 94–112): alpha bonus
for profiled politicians, +5 for chronic late filers, capped at 40. -/
def PoliticianScorer.score (politician : String)
    (hist : List PoliticianTrade) : ℚ :=
  let pts : ℚ :=
    match historical_alpha politician with
    | some alpha => alpha * 35
    | none => 0
  let pts : ℚ := if 5 < lateFilings politician hist then pts + 5 else pts
  min pts 40

/-- `TradeScorer.score` (`scoring/engine.py` lines 118–159). Returns the
score together with the reason strings (reason text is abbreviated: the
claims under verification concern only the count of reasons). -/
def TradeScorer.score (t : PoliticianTrade) : ℚ × List String :=
  if !isPurchase t then (0, ["Salg - ignorer for kjoepssignal"]) else
  let pts : ℚ :=
    if 1000000 ≤ t.avg_amount then 15
    else if 250000 ≤ t.avg_amount then 10
    else if 50000 ≤ t.avg_amount then 5
    else 2
  let pts : ℚ := if t.is_option then pts + 8 else pts
  let pts : ℚ :=
    if t.is_suspiciously_late then pts + 7
    else if t.is_late then pts + 4
    else pts
  let pts : ℚ :=
    if t.committee ≠ "" ∧ t.symbol ∈ COMMITTEE_SECTOR_MAP t.committee
    then pts + 10 else pts
  (min pts 40, [])

/-- §4.1 of the spec, written from the spec's words: the reference definition
of the trade sub-score, to be compared with `TradeScorer.score`. -/
def specTradeScoreVal (t : PoliticianTrade) : ℚ :=
  if !isPurchase t then 0 else
  let sizeTier : ℚ :=
    if 1000000 ≤ t.avg_amount then 15
    else if 250000 ≤ t.avg_amount then 10
    else if 50000 ≤ t.avg_amount then 5
    else 2
  let optionBonus : ℚ := if t.is_option then 8 else 0
  let delayBonus : ℚ :=
    if 90 < t.filing_delay_days then 7
    else if 45 < t.filing_delay_days then 4
    else 0
  let committeeBonus : ℚ :=
    if t.symbol ∈ COMMITTEE_SECTOR_MAP t.committee then 10 else 0
  min (sizeTier + optionBonus + delayBonus + committeeBonus) 40

/-- The per-symbol entry of the cluster map built by
`ClusterDetector.detect_clusters`. -/
structure ClusterInfo where
  count : ℕ
  politicians : List String
  total_amount : ℤ
  score : ℚ
deriving DecidableEq, Repr

/-- Append a trade to its symbol's group, creating the group at the end if the
symbol is new — the behaviour of `clusters[trade.symbol].append(trade)` on a
`defaultdict(list)`. -/
def addToGroup (acc : List (String × List PoliticianTrade)) (sym : String)
    (t : PoliticianTrade) : List (String × List PoliticianTrade) :=
  match acc with
  | [] => [(sym, [t])]
  | (s, ts) :: rest =>
    if s = sym then (s, ts ++ [t]) :: rest
    else (s, ts) :: addToGroup rest sym t

/-- `for trade in recent: clusters[trade.symbol].append(trade)`. -/
def groupBySymbol (l : List PoliticianTrade) :
    List (String × List PoliticianTrade) :=
  l.foldl (fun acc t => addToGroup acc t.symbol t) []

/-- The purchase-type trades whose transaction date lies inside the rolling
window (`purchases` restricted to `recent` in `detect_clusters`;
`cutoff = today − window_days`). -/
def recentPurchases (today window_days : ℤ)
    (trades : List PoliticianTrade) : List PoliticianTrade :=
  trades.filter (fun t => isPurchase t && today - window_days ≤ t.transaction_date)

/-- `set(t.politician for t in symbol_trades)`, as a duplicate-free list
(Python's `set` carries no specified order; `List.dedup` is used as its
canonical representative). -/
def uniquePoliticians (ts : List PoliticianTrade) : List String :=
  (ts.map (·.politician)).dedup

/-- The cluster entry derived from one symbol's trades: present iff at least
2 distinct politicians appear (`if len(unique_politicians) >= 2` in
`detect_clusters`), carrying the distinct count, the names, the summed
averaged amount and `min(count × 8, 20)`. -/
def clusterInfoOf (ts : List PoliticianTrade) : Option ClusterInfo :=
  let ups := uniquePoliticians ts
  if 2 ≤ ups.length then
    some { count := ups.length
           politicians := ups
           total_amount := (ts.map (·.avg_amount)).sum
           score := min ((ups.length : ℚ) * 8) 20 }
  else none

/-- `ClusterDetector.detect_clusters` (`scoring/engine.py` lines 168–199):
the cluster map as an association list from symbol to cluster info, one entry
per symbol bought by ≥ 2 distinct politicians inside the window. -/
def ClusterDetector.detect_clusters (today : ℤ)
    (trades : List PoliticianTrade) (window_days : ℤ := 30) :
    List (String × ClusterInfo) :=
  (groupBySymbol (recentPurchases today window_days trades)).filterMap
    (fun g => (clusterInfoOf g.2).map (fun c => (g.1, c)))

/-- The three reason strings of `ClusterDetector.score_for_symbol`. -/
def clusterReasons (symbol : String) (c : ClusterInfo) : List String :=
  let names := String.intercalate ", " (c.politicians.take 5)
  let n := c.count
  let amt := c.total_amount
  [s!"KLYNGE: {n} politikere kjoepte {symbol} nylig!",
   s!"   Politikere: {names}",
   s!"   Totalt investert: ${amt}"]

/-- `ClusterDetector.score_for_symbol` (`scoring/engine.py` lines 201–210). -/
def ClusterDetector.score_for_symbol (symbol : String)
    (clusters : List (String × ClusterInfo)) : ℚ × List String :=
  match clusters.lookup symbol with
  | none => (0, [])
  | some c => (c.score, clusterReasons symbol c)

/-- A `TradeSignal` (`scoring/engine.py` lines 77–88). -/
structure TradeSignal where
  trade : PoliticianTrade
  total_score : ℚ
  politician_score : ℚ
  trade_score : ℚ
  cluster_score : ℚ
  recommendation : String
  reasons : List String
  urgency : String
  suggested_position_size : String
deriving DecidableEq, Repr

/-- Accumulator of the signal-generation loop: the signals emitted so far and
the `seen_symbols` dedup set (a `(symbol, transaction_date)` key models the
`f"{symbol}_{date}"` string key — injective because symbols never contain
`_`). -/
structure GenState where
  signals : List TradeSignal
  seen : List (String × ℤ)
deriving DecidableEq, Repr

/-- The dedup key of a signal. -/
def keyOf (s : TradeSignal) : String × ℤ :=
  (s.trade.symbol, s.trade.transaction_date)

/-- The body of the `for trade in trades` loop of
`SignalEngine.generate_signals` (`scoring/engine.py` lines 239–291). -/
def processTrade (clusters : List (String × ClusterInfo))
    (hist : List PoliticianTrade) (st : GenState) (t : PoliticianTrade) :
    GenState :=
  if !isPurchase t then st
  else if (t.symbol, t.transaction_date) ∈ st.seen then st
  else
    let seen' := (t.symbol, t.transaction_date) :: st.seen
    let pol_score := PoliticianScorer.score t.politician hist
    let tr := TradeScorer.score t
    let cl := ClusterDetector.score_for_symbol t.symbol clusters
    let total := pol_score + tr.1 + cl.1
    let all_reasons := tr.2 ++ cl.2
    let all_reasons :=
      if 0 < pol_score then s!"Kjent politiker: {t.politician}" :: all_reasons
      else all_reasons
    let emit : String → String → String → GenState := fun recom urg size =>
      { signals := st.signals ++
          [{ trade := t
             total_score := pyRound 1 total
             politician_score := pyRound 1 pol_score
             trade_score := pyRound 1 tr.1
             cluster_score := pyRound 1 cl.1
             recommendation := recom
             reasons := all_reasons
             urgency := urg
             suggested_position_size := size }]
        seen := seen' }
    if total < 40 then { signals := st.signals, seen := seen' }
    else if 80 ≤ total then emit "STRONG BUY" "IMMEDIATE" "FULL"
    else if 65 ≤ total then emit "BUY" "TODAY" "HALF"
    else if 40 ≤ total then emit "WATCH" "THIS_WEEK" "QUARTER"
    else { signals := st.signals, seen := seen' }

/-- The signals emitted by one pass, in production (feed) order — the value of
`signals` just before the final `signals.sort(...)`. -/
def emittedSignals (today : ℤ) (trades hist : List PoliticianTrade) :
    List TradeSignal :=
  (trades.foldl
    (processTrade (ClusterDetector.detect_clusters today hist) hist)
    { signals := [], seen := [] }).signals

/-- Stable insertion into a list sorted by descending `total_score`: the new
element goes before the first strictly smaller score, after all earlier
elements with an equal or larger score. -/
def insertSig (s : TradeSignal) : List TradeSignal → List TradeSignal
  | [] => [s]
  | t :: ts =>
    if s.total_score < t.total_score then t :: insertSig s ts
    else s :: t :: ts

/-- Stable descending sort by `total_score` — the semantics of Python's
stable `signals.sort(key=lambda s: s.total_score, reverse=True)`. -/
def sortSignals : List TradeSignal → List TradeSignal
  | [] => []
  | s :: ss => insertSig s (sortSignals ss)

/-- `SignalEngine.generate_signals` (`scoring/engine.py` lines 226–296). -/
def SignalEngine.generate_signals (today : ℤ)
    (trades hist : List PoliticianTrade) : List TradeSignal :=
  sortSignals (emittedSignals today trades hist)

/-- `SIZE_MULTIPLIERS` (`execution/trader.py` lines 22–26). -/
def SIZE_MULTIPLIERS (size : String) : Option ℚ :=
  if size = "FULL" then some 1
  else if size = "HALF" then some (1/2)
  else if size = "QUARTER" then some (1/4)
  else none

/-- `SIZE_MULTIPLIERS.get(signal.suggested_position_size, 0.25)` — the
multiplier actually applied by `PolitibotTrader.execute_signal`
(`execution/trader.py` line 107). -/
def executeMultiplier (size : String) : ℚ :=
  (SIZE_MULTIPLIERS size).getD (1/4)

/-- `{"FULL": 1.0, "HALF": 0.5, "QUARTER": 0.25}.get(signal.size, 0.5)` — the
multiplier applied by `PaperTrader.try_buy` (`main.py` line 341). -/
def tryBuyMultiplier (size : String) : ℚ :=
  if size = "FULL" then 1
  else if size = "HALF" then 1/2
  else if size = "QUARTER" then 1/4
  else 1/2

/-- An `ExecutedTrade` (`execution/trader.py` lines 29–40). `order_id`,
`timestamp` and `mode` are I/O metadata (uuid / wall clock / mode echo) and
are omitted. -/
structure ExecutedTrade where
  signal : TradeSignal
  shares : ℤ
  entry_price : ℚ
  stop_loss : ℚ
  take_profit : ℚ
  pnl : ℚ := 0
  is_open : Bool := true
deriving DecidableEq, Repr

/-- The mutable state of a `PolitibotTrader`: `_positions` (insertion-ordered
dict → association list), `_history`, `_equity`, and the `paper` flag. -/
structure TraderState where
  positions : List (String × ExecutedTrade)
  history : List ExecutedTrade
  equity : ℚ
  paper : Bool
deriving DecidableEq, Repr

/-- `symbol in self._positions`. -/
def hasPosition (st : TraderState) (symbol : String) : Bool :=
  (st.positions.map Prod.fst).contains symbol

/-- `PolitibotTrader.execute_signal` (`execution/trader.py` lines 87–141).
The price source is the oracle `getPrice`; `if not price` treats both a
missing price and a price of `0.0` as unavailable (Python falsiness).
Returns the new trader state and the created position, if any. -/
def PolitibotTrader.execute_signal (st : TraderState)
    (getPrice : String → Option ℚ) (signal : TradeSignal) :
    TraderState × Option ExecutedTrade :=
  let symbol := signal.trade.symbol
  if 5 ≤ st.positions.length then (st, none)
  else if hasPosition st symbol then (st, none)
  else
    match getPrice symbol with
    | none => (st, none)
    | some price =>
      if price = 0 then (st, none)
      else
        let multiplier := executeMultiplier signal.suggested_position_size
        let risk_dollars := st.equity * (2/100) * multiplier
        let stop_loss := pyRound 4 (price * (1 - 8/100))
        let take_profit := pyRound 4 (price * (1 + 20/100))
        let per_share_risk := price - stop_loss
        let shares := max 1 (pyInt (risk_dollars / per_share_risk))
        let max_shares := pyInt (st.equity * (10/100) / price)
        let shares := min shares max_shares
        let trade : ExecutedTrade :=
          { signal := signal
            shares := shares
            entry_price := price
            stop_loss := stop_loss
            take_profit := take_profit }
        ({ st with
            positions := st.positions ++ [(symbol, trade)]
            equity := if st.paper then st.equity
                      else st.equity - shares * price },
         some trade)

/-- `current_prices.get(symbol, trade.entry_price)`
(`execution/trader.py` line 147). -/
def effectivePrice (current_prices : String → Option ℚ) (symbol : String)
    (trade : ExecutedTrade) : ℚ :=
  (current_prices symbol).getD trade.entry_price

/-- The trailing-stop ratchet of `update_positions`: if the unrounded
candidate `price × (1 − 0.12)` exceeds the current stop, the stop becomes the
candidate rounded to 4 decimals (`execution/trader.py` lines 149–152). -/
def trailStop (price : ℚ) (trade : ExecutedTrade) : ExecutedTrade :=
  let new_sl := price * (1 - 12/100)
  if trade.stop_loss < new_sl then
    { trade with stop_loss := pyRound 4 new_sl }
  else trade

/-- `PolitibotTrader.update_positions` (`execution/trader.py` lines 143–173):
one tick over all open positions, in insertion order. Returns the new state
and the list of symbols closed this tick. -/
def PolitibotTrader.update_positions (st : TraderState)
    (current_prices : String → Option ℚ) : TraderState × List String :=
  st.positions.foldl
    (fun acc entry =>
      let symbol := entry.1
      let price := effectivePrice current_prices symbol entry.2
      let trade := trailStop price entry.2
      let exitNow : Bool :=
        price ≤ trade.stop_loss || trade.take_profit ≤ price
      if exitNow then
        let pnl := pyRound 2 ((price - trade.entry_price) * trade.shares)
        let trade := { trade with pnl := pnl, is_open := false }
        ({ positions := acc.1.positions
           history := acc.1.history ++ [trade]
           equity := acc.1.equity + price * trade.shares
           paper := acc.1.paper },
         acc.2 ++ [symbol])
      else
        ({ acc.1 with positions := acc.1.positions ++ [(symbol, trade)] },
         acc.2))
    ({ positions := [], history := st.history, equity := st.equity,
       paper := st.paper }, [])

/-! ## Arithmetic helper lemmas -/

lemma round_mono_q {x y : ℚ} (h : x ≤ y) : round x ≤ round y := by
  rw [round_eq, round_eq]
  exact Int.floor_le_floor (by linarith)

lemma pyRound_mono (d : ℕ) {x y : ℚ} (h : x ≤ y) : pyRound d x ≤ pyRound d y := by
  unfold pyRound
  have hp : (0:ℚ) < 10 ^ d := by positivity
  have h1 : round (x * 10 ^ d) ≤ round (y * 10 ^ d) :=
    round_mono_q (mul_le_mul_of_nonneg_right h hp.le)
  have h2 : ((round (x * 10 ^ d) : ℤ) : ℚ) ≤ ((round (y * 10 ^ d) : ℤ) : ℚ) := by
    exact_mod_cast h1
  gcongr

lemma pyRound_intMul (d : ℕ) (n : ℤ) :
    pyRound d ((n : ℚ) / 10 ^ d) = (n : ℚ) / 10 ^ d := by
  unfold pyRound
  rw [div_mul_cancel₀ _ (by positivity : (10:ℚ) ^ d ≠ 0), round_intCast]

lemma le_pyRound_of_lt (d : ℕ) (m : ℤ) (x : ℚ)
    (h : (m : ℚ) / 10 ^ d < x) : (m : ℚ) / 10 ^ d ≤ pyRound d x := by
  have hp : (0:ℚ) < 10 ^ d := by positivity
  have hc : (m : ℚ) < x * 10 ^ d := (div_lt_iff₀ hp).mp h
  have habs := abs_le.mp (abs_sub_round (x * 10 ^ d))
  have h3 : m ≤ round (x * 10 ^ d) := by
    have : ((m : ℤ) : ℚ) - 1 < ((round (x * 10 ^ d) : ℤ) : ℚ) := by
      linarith [habs.2]
    have h4 : (m : ℤ) - 1 < round (x * 10 ^ d) := by exact_mod_cast this
    omega
  have h5 : ((m : ℤ) : ℚ) ≤ ((round (x * 10 ^ d) : ℤ) : ℚ) := by exact_mod_cast h3
  unfold pyRound
  gcongr

/-! ## C3 — TradeScorer.score against the §4.1 reference definition -/

lemma COMMITTEE_SECTOR_MAP_empty : COMMITTEE_SECTOR_MAP "" = [] := by
  decide

lemma committee_cond (t : PoliticianTrade) :
    (t.committee ≠ "" ∧ t.symbol ∈ COMMITTEE_SECTOR_MAP t.committee) ↔
      t.symbol ∈ COMMITTEE_SECTOR_MAP t.committee := by
  constructor
  · exact And.right
  · intro h
    refine ⟨?_, h⟩
    intro hc
    rw [hc, COMMITTEE_SECTOR_MAP_empty] at h
    exact List.not_mem_nil _ h

set_option maxHeartbeats 1000000 in
/-- C3: `TradeScorer.score` equals the §4.1 reference definition: non-purchase
trades score exactly 0 with a single reason; purchase trades score
`min(size tier + option bonus + delay bonus + committee bonus, 40)` with the
stated mutually-exclusive tiers; the score is always in `[0, 40]`. -/
theorem spec2proof_C3 (t : PoliticianTrade) :
    (TradeScorer.score t).1 = specTradeScoreVal t
    ∧ 0 ≤ (TradeScorer.score t).1
    ∧ (TradeScorer.score t).1 ≤ 40
    ∧ (isPurchase t = false → (TradeScorer.score t).2.length = 1) := by
  unfold TradeScorer.score specTradeScoreVal
  cases hp : isPurchase t with
  | false => simp
  | true =>
    simp only [hp, Bool.not_true, Bool.false_eq_true, if_false,
      PoliticianTrade.is_suspiciously_late, PoliticianTrade.is_late,
      decide_eq_true_eq, committee_cond]
    refine ⟨?_, ?_, ?_, by simp⟩ <;> split_ifs <;> norm_num

/-- Witness for C3 at a concrete sale trade. -/
theorem spec2proof_C3_witness :
    isPurchase (PoliticianTrade.mk "X" "ABC" "Sale" 1001 15000 0 0 false "")
      = false
    ∧ (TradeScorer.score
        (PoliticianTrade.mk "X" "ABC" "Sale" 1001 15000 0 0 false "")).2.length
      = 1 :=
  ⟨by decide, (spec2proof_C3 _).2.2.2 (by decide)⟩

/-! ## C7 — PoliticianScorer.score -/

lemma historical_alpha_cases (p : String) :
    historical_alpha p = none
    ∨ ∃ a, historical_alpha p = some a
        ∧ a ∈ [(92:ℚ)/100, 71/100, 68/100, 65/100, 60/100] := by
  unfold historical_alpha
  split_ifs <;> simp

lemma polScore_form (p : String) (hist : List PoliticianTrade) :
    ∃ n : ℤ, PoliticianScorer.score p hist = (n : ℚ) / 20
      ∧ 0 ≤ n ∧ (n : ℚ) / 20 ≤ 40 ∧ n % 20 ≠ 19 := by
  unfold PoliticianScorer.score
  rcases historical_alpha_cases p with h | ⟨a, h, ha⟩
  · rw [h]
    split_ifs
    · refine ⟨100, ?_⟩; norm_num [min_def]
    · refine ⟨0, ?_⟩; norm_num [min_def]
  · rw [h]
    fin_cases ha <;> split_ifs <;>
      first
        | (refine ⟨744, ?_⟩; norm_num [min_def]; done)
        | (refine ⟨644, ?_⟩; norm_num [min_def]; done)
        | (refine ⟨597, ?_⟩; norm_num [min_def]; done)
        | (refine ⟨497, ?_⟩; norm_num [min_def]; done)
        | (refine ⟨576, ?_⟩; norm_num [min_def]; done)
        | (refine ⟨476, ?_⟩; norm_num [min_def]; done)
        | (refine ⟨555, ?_⟩; norm_num [min_def]; done)
        | (refine ⟨455, ?_⟩; norm_num [min_def]; done)
        | (refine ⟨520, ?_⟩; norm_num [min_def]; done)
        | (refine ⟨420, ?_⟩; norm_num [min_def]; done)

/-- C7: the politician score is `min(alpha·35 + late-filer bonus, 40)`; it is
always in `[0, 40]`; a politician absent from the profile table scores exactly
the late-filer bonus (0 or 5). -/
theorem spec2proof_C7 (p : String) (hist : List PoliticianTrade) :
    PoliticianScorer.score p hist =
      min ((match historical_alpha p with
            | some a => a * 35
            | none => 0)
           + (if 5 < lateFilings p hist then (5:ℚ) else 0)) 40
    ∧ 0 ≤ PoliticianScorer.score p hist
    ∧ PoliticianScorer.score p hist ≤ 40
    ∧ (historical_alpha p = none →
        PoliticianScorer.score p hist =
          if 5 < lateFilings p hist then (5:ℚ) else 0) := by
  obtain ⟨n, hn, hn0, hn40, -⟩ := polScore_form p hist
  refine ⟨?_, ?_, ?_, ?_⟩
  · unfold PoliticianScorer.score
    cases historical_alpha p <;> split_ifs <;> norm_num
  · rw [hn]
    positivity
  · rw [hn]
    exact hn40
  · intro h
    unfold PoliticianScorer.score
    rw [h]
    split_ifs <;> norm_num

def lateTrade : PoliticianTrade :=
  ⟨"John Doe", "AAPL", "Purchase", 1001, 15000, 0, 50, false, ""⟩

/-- Witness for C7: an unprofiled chronic late filer scores the flat bonus. -/
theorem spec2proof_C7_witness :
    historical_alpha "John Doe" = none
    ∧ 5 < lateFilings "John Doe" (List.replicate 6 lateTrade)
    ∧ PoliticianScorer.score "John Doe" (List.replicate 6 lateTrade) =
        (if 5 < lateFilings "John Doe" (List.replicate 6 lateTrade)
         then (5:ℚ) else 0) :=
  ⟨by decide, by decide, (spec2proof_C7 _ _).2.2.2 (by decide)⟩

/-! ## C9 — the position-size multiplier -/

def unknownSig : TradeSignal :=
  { trade := ⟨"X", "NVDA", "Purchase", 0, 0, 0, 0, false, ""⟩
    total_score := 90
    politician_score := 0
    trade_score := 0
    cluster_score := 0
    recommendation := "STRONG BUY"
    reasons := []
    urgency := "IMMEDIATE"
    suggested_position_size := "MAX" }

/-- C9 counterexample: a signal whose size tag is unrecognized gets multiplier
0.25 — not 0.5 — in `PolitibotTrader.execute_signal`: with equity 100,000 and
price 50 it buys 125 shares (risk 500/4 per share), where a 0.5 default would
buy 200 (risk 1000/4, capped at 200). -/
theorem spec2proof_C9_counterexample :
    executeMultiplier "MAX" = 1/4
    ∧ (1/4 : ℚ) ≠ 1/2
    ∧ ((PolitibotTrader.execute_signal ⟨[], [], 100000, true⟩
          (fun _ => some 50) unknownSig).2.map (fun tr => tr.shares))
        = some 125 := by
  have eMAX : executeMultiplier "MAX" = 1/4 := by
    unfold executeMultiplier SIZE_MULTIPLIERS
    rw [if_neg (by decide), if_neg (by decide), if_neg (by decide)]
    rfl
  refine ⟨eMAX, by norm_num, ?_⟩
  unfold PolitibotTrader.execute_signal
  norm_num [hasPosition, unknownSig, eMAX, pyRound, pyInt, round_eq,
    max_def, min_def]

/-- C9 amended: the recognized multipliers are FULL = 1, HALF = 0.5,
QUARTER = 0.25 in both stacks; an unrecognized size tag defaults to 0.25 in
`PolitibotTrader.execute_signal` (`trader.py`) and to 0.5 in
`PaperTrader.try_buy` (`main.py`). -/
theorem spec2proof_C9_amended (s : String) :
    executeMultiplier "FULL" = 1
    ∧ executeMultiplier "HALF" = 1/2
    ∧ executeMultiplier "QUARTER" = 1/4
    ∧ tryBuyMultiplier "FULL" = 1
    ∧ tryBuyMultiplier "HALF" = 1/2
    ∧ tryBuyMultiplier "QUARTER" = 1/4
    ∧ (s ≠ "FULL" → s ≠ "HALF" → s ≠ "QUARTER" →
        executeMultiplier s = 1/4 ∧ tryBuyMultiplier s = 1/2) := by
  refine ⟨by unfold executeMultiplier SIZE_MULTIPLIERS
             rw [if_pos rfl]; rfl,
    by unfold executeMultiplier SIZE_MULTIPLIERS
       rw [if_neg (by decide), if_pos rfl]; rfl,
    by unfold executeMultiplier SIZE_MULTIPLIERS
       rw [if_neg (by decide), if_neg (by decide), if_pos rfl]; rfl,
    by unfold tryBuyMultiplier
       rw [if_pos rfl],
    by unfold tryBuyMultiplier
       rw [if_neg (by decide), if_pos rfl],
    by unfold tryBuyMultiplier
       rw [if_neg (by decide), if_neg (by decide), if_pos rfl],
    fun h1 h2 h3 => ?_⟩
  unfold executeMultiplier SIZE_MULTIPLIERS tryBuyMultiplier
  rw [if_neg h1, if_neg h2, if_neg h3, if_neg h1, if_neg h2, if_neg h3]
  exact ⟨rfl, rfl⟩

/-- Witness for the amended C9 at a concrete unrecognized tag. -/
theorem spec2proof_C9_witness :
    executeMultiplier "SOMETAG" = 1/4 ∧ tryBuyMultiplier "SOMETAG" = 1/2 :=
  (spec2proof_C9_amended "SOMETAG").2.2.2.2.2.2
    (by decide) (by decide) (by decide)

/-! ## C10 — zero-share positions when price exceeds 10% of equity -/

lemma pyInt_eq_zero {x : ℚ} (h0 : 0 ≤ x) (h1 : x < 1) : pyInt x = 0 := by
  unfold pyInt
  exact Int.tdiv_eq_zero_of_lt (Rat.num_nonneg.mpr h0)
    (Rat.lt_one_iff_num_lt_denom.mp h1)

/-- C10: whenever `execute_signal`'s preconditions pass but the current price
exceeds 10% of equity (with nonnegative equity), the 10%-of-equity share cap
truncates to 0 and is applied after the minimum-one-share floor, so an open
position with 0 shares is created and stored instead of being rejected. -/
theorem spec2proof_C10 (st : TraderState) (getPrice : String → Option ℚ)
    (sg : TradeSignal) (p : ℚ)
    (hlen : st.positions.length < 5)
    (hdup : hasPosition st sg.trade.symbol = false)
    (hp : getPrice sg.trade.symbol = some p)
    (hpos : 0 < p) (heq : 0 ≤ st.equity)
    (hcap : st.equity * (10/100) < p) :
    ∃ tr : ExecutedTrade,
      (PolitibotTrader.execute_signal st getPrice sg).2 = some tr
      ∧ tr.shares = 0
      ∧ (PolitibotTrader.execute_signal st getPrice sg).1.positions
          = st.positions ++ [(sg.trade.symbol, tr)] := by
  have hz : pyInt (st.equity * (10/100) / p) = 0 :=
    pyInt_eq_zero (div_nonneg (by positivity) hpos.le)
      ((div_lt_one hpos).mpr hcap)
  have hmin : ∀ k : ℤ, min (max 1 k) (0:ℤ) = 0 := by
    intro k
    rw [min_eq_right]
    exact le_trans (by norm_num) (le_max_left 1 k)
  unfold PolitibotTrader.execute_signal
  rw [if_neg (by omega), if_neg (by rw [hdup]; exact Bool.false_ne_true), hp]
  simp only [if_neg hpos.ne', hz, hmin]
  exact ⟨_, rfl, rfl, rfl⟩

/-- Witness for C10: equity 100,000, price 20,000 → a 0-share position. -/
theorem spec2proof_C10_witness :
    ∃ tr : ExecutedTrade,
      (PolitibotTrader.execute_signal ⟨[], [], 100000, true⟩
        (fun _ => some 20000) unknownSig).2 = some tr
      ∧ tr.shares = 0
      ∧ (PolitibotTrader.execute_signal ⟨[], [], 100000, true⟩
          (fun _ => some 20000) unknownSig).1.positions
          = [] ++ [(unknownSig.trade.symbol, tr)] :=
  spec2proof_C10 ⟨[], [], 100000, true⟩ (fun _ => some 20000) unknownSig 20000
    (by decide) (by decide) rfl (by norm_num) (by norm_num) (by norm_num)


/-! ## C8 — execute_signal rejection preconditions -/

/-- C8: under the PriceSource contract of §6 (available prices are positive),
`execute_signal` returns the unchanged state and no position exactly when a
precondition fails: position cap reached, symbol already open, or no price;
in particular with 5 open positions every signal is rejected. -/
theorem spec2proof_C8 (st : TraderState) (getPrice : String → Option ℚ)
    (sg : TradeSignal)
    (hcontract : ∀ s p, getPrice s = some p → 0 < p) :
    (PolitibotTrader.execute_signal st getPrice sg = (st, none) ↔
      (5 ≤ st.positions.length
        ∨ hasPosition st sg.trade.symbol = true
        ∨ getPrice sg.trade.symbol = none))
    ∧ (5 ≤ st.positions.length →
        PolitibotTrader.execute_signal st getPrice sg = (st, none)) := by
  unfold PolitibotTrader.execute_signal
  by_cases h1 : 5 ≤ st.positions.length
  · rw [if_pos h1]
    exact ⟨⟨fun _ => Or.inl h1, fun _ => rfl⟩, fun _ => rfl⟩
  · rw [if_neg h1]
    refine ⟨?_, fun h => absurd h h1⟩
    by_cases h2 : hasPosition st sg.trade.symbol
    · rw [if_pos h2]
      exact ⟨fun _ => Or.inr (Or.inl h2), fun _ => rfl⟩
    · rw [if_neg h2]
      cases h3 : getPrice sg.trade.symbol with
      | none => exact ⟨fun _ => Or.inr (Or.inr rfl), fun _ => rfl⟩
      | some p =>
        have hpos := hcontract _ _ h3
        simp only [if_neg hpos.ne']
        constructor
        · intro he
          have hsnd := congrArg Prod.snd he
          simp at hsnd
        · rintro (h | h | h)
          · exact absurd h h1
          · exact absurd h h2
          · exact Option.noConfusion h

def demoExec : ExecutedTrade :=
  { signal := unknownSig, shares := 1, entry_price := 100, stop_loss := 92,
    take_profit := 120 }

def fullState : TraderState :=
  ⟨[("A", demoExec), ("B", demoExec), ("C", demoExec), ("D", demoExec),
    ("E", demoExec)], [], 100000, true⟩

/-- Witness for C8: with five open positions every signal is rejected. -/
theorem spec2proof_C8_witness :
    PolitibotTrader.execute_signal fullState (fun _ => some 100) unknownSig
      = (fullState, none) :=
  (spec2proof_C8 fullState (fun _ => some 100) unknownSig
    (fun _ p h => by
      obtain rfl : (100 : ℚ) = p := Option.some.inj h
      norm_num)).2 (by decide)

/-! ## C1 — positions with no supplied price -/

def demoSignal : TradeSignal :=
  { trade := ⟨"X", "NVDA", "Purchase", 0, 0, 0, 0, false, ""⟩
    total_score := 50
    politician_score := 0
    trade_score := 0
    cluster_score := 0
    recommendation := "WATCH"
    reasons := []
    urgency := "THIS_WEEK"
    suggested_position_size := "HALF" }

def nvdaPos : ExecutedTrade :=
  { signal := demoSignal, shares := 100, entry_price := 100, stop_loss := 92,
    take_profit := 120 }

def nvdaPosHigh : ExecutedTrade :=
  { signal := demoSignal, shares := 100, entry_price := 100,
    stop_loss := 506/5, take_profit := 120 }

def nvdaPosClosed : ExecutedTrade :=
  { signal := demoSignal, shares := 100, entry_price := 100,
    stop_loss := 506/5, take_profit := 120, pnl := 0, is_open := false }

/-- C1 counterexample: a reachable position (bought at 100, trailing stop
ratcheted to 101.2 by a tick at 115) is closed — with equity and history
mutated and its symbol reported closed — on a tick whose price map does not
contain its symbol, because the price lookup falls back to the entry price. -/
theorem spec2proof_C1_counterexample :
    (PolitibotTrader.execute_signal ⟨[], [], 100000, true⟩
        (fun _ => some 100) demoSignal).1
      = ⟨[("NVDA", nvdaPos)], [], 100000, true⟩
    ∧ (PolitibotTrader.update_positions ⟨[("NVDA", nvdaPos)], [], 100000, true⟩
        (fun _ => some 115)).1
      = ⟨[("NVDA", nvdaPosHigh)], [], 100000, true⟩
    ∧ PolitibotTrader.update_positions
        ⟨[("NVDA", nvdaPosHigh)], [], 100000, true⟩ (fun _ => none)
      = (⟨[], [nvdaPosClosed], 110000, true⟩, ["NVDA"])
    ∧ (110000 : ℚ) ≠ 100000 := by
  have eH : executeMultiplier "HALF" = 1/2 := by
    unfold executeMultiplier SIZE_MULTIPLIERS
    rw [if_neg (by decide), if_pos rfl]
    rfl
  refine ⟨?_, ?_, ?_, by norm_num⟩
  · unfold PolitibotTrader.execute_signal
    norm_num [hasPosition, demoSignal, eH, pyRound, pyInt, round_eq,
      max_def, min_def, nvdaPos]
  · unfold PolitibotTrader.update_positions
    norm_num [trailStop, effectivePrice, pyRound, round_eq, nvdaPos,
      nvdaPosHigh]
  · unfold PolitibotTrader.update_positions
    norm_num [trailStop, effectivePrice, pyRound, round_eq, nvdaPosHigh,
      nvdaPosClosed]

/-- C1 amended: a position whose symbol is absent from `current_prices` is not
skipped — the lookup falls back to its entry price, and the tick proceeds as
if the current price equalled the entry price. -/
theorem spec2proof_C1_amended (prices : String → Option ℚ) (sym : String)
    (tr : ExecutedTrade) (hist : List ExecutedTrade) (cash : ℚ) (paper : Bool)
    (h : prices sym = none) :
    effectivePrice prices sym tr = tr.entry_price
    ∧ PolitibotTrader.update_positions ⟨[(sym, tr)], hist, cash, paper⟩ prices
      = PolitibotTrader.update_positions ⟨[(sym, tr)], hist, cash, paper⟩
          (fun s => if s = sym then some tr.entry_price else prices s) := by
  constructor
  · unfold effectivePrice
    rw [h]
    rfl
  · unfold PolitibotTrader.update_positions
    simp [effectivePrice, h]

/-- Witness for the amended C1 at a concrete position and empty price map. -/
theorem spec2proof_C1_witness :
    effectivePrice (fun _ => none) "NVDA" nvdaPos = nvdaPos.entry_price
    ∧ PolitibotTrader.update_positions ⟨[("NVDA", nvdaPos)], [], 100000, true⟩
        (fun _ => none)
      = PolitibotTrader.update_positions ⟨[("NVDA", nvdaPos)], [], 100000, true⟩
          (fun s => if s = "NVDA" then some nvdaPos.entry_price
                    else (fun _ => none) s) :=
  spec2proof_C1_amended (fun _ => none) "NVDA" nvdaPos [] 100000 true rfl

/-! ## C2 — the trailing-stop ratchet -/

lemma trailStop_stop_eq (p : ℚ) (tr : ExecutedTrade) (n : ℤ)
    (h : tr.stop_loss = (n : ℚ) / 10 ^ 4) :
    (trailStop p tr).stop_loss
      = max tr.stop_loss (pyRound 4 (p * (1 - 12/100))) := by
  unfold trailStop
  by_cases hc : tr.stop_loss < p * (1 - 12/100)
  · rw [if_pos hc]
    show pyRound 4 (p * (1 - 12/100))
      = max tr.stop_loss (pyRound 4 (p * (1 - 12/100)))
    have hlt : (n : ℚ) / 10 ^ 4 < p * (1 - 12/100) := h ▸ hc
    have hle : tr.stop_loss ≤ pyRound 4 (p * (1 - 12/100)) := by
      rw [h]
      exact le_pyRound_of_lt 4 n _ hlt
    rw [max_eq_right hle]
  · rw [if_neg hc]
    push_neg at hc
    have h2 : pyRound 4 (p * (1 - 12/100)) ≤ tr.stop_loss := by
      calc pyRound 4 (p * (1 - 12/100)) ≤ pyRound 4 tr.stop_loss :=
            pyRound_mono 4 hc
        _ = tr.stop_loss := by rw [h, pyRound_intMul]
    rw [max_eq_left h2]

lemma trailStop_quant (p : ℚ) (tr : ExecutedTrade)
    (h : ∃ n : ℤ, tr.stop_loss = (n : ℚ) / 10 ^ 4) :
    ∃ m : ℤ, (trailStop p tr).stop_loss = (m : ℚ) / 10 ^ 4 := by
  obtain ⟨n, hn⟩ := h
  unfold trailStop
  dsimp only
  split_ifs with hc
  · exact ⟨round (p * (1 - 12/100) * 10 ^ 4), rfl⟩
  · exact ⟨n, hn⟩

lemma trailStop_flat (p p2 : ℚ) (tr : ExecutedTrade) (n : ℤ)
    (h : tr.stop_loss = (n : ℚ) / 10 ^ 4) (h2 : p2 ≤ p) :
    (trailStop p2 (trailStop p tr)).stop_loss = (trailStop p tr).stop_loss := by
  obtain ⟨m, hm⟩ := trailStop_quant p tr ⟨n, h⟩
  rw [trailStop_stop_eq p2 (trailStop p tr) m hm]
  apply max_eq_left
  calc pyRound 4 (p2 * (1 - 12/100))
      ≤ pyRound 4 (p * (1 - 12/100)) :=
        pyRound_mono 4 (mul_le_mul_of_nonneg_right h2 (by norm_num))
    _ ≤ (trailStop p tr).stop_loss := by
        rw [trailStop_stop_eq p tr n h]
        exact le_max_right _ _

lemma execute_stop_quant (st : TraderState) (getPrice : String → Option ℚ)
    (sg : TradeSignal) (st' : TraderState) (tr : ExecutedTrade)
    (h : PolitibotTrader.execute_signal st getPrice sg = (st', some tr)) :
    ∃ m : ℤ, tr.stop_loss = (m : ℚ) / 10 ^ 4 := by
  have h2 := congrArg Prod.snd h
  clear h
  unfold PolitibotTrader.execute_signal at h2
  dsimp only at h2
  by_cases hA : 5 ≤ st.positions.length
  · rw [if_pos hA] at h2
    exact absurd h2 (by simp)
  · rw [if_neg hA] at h2
    by_cases hB : hasPosition st sg.trade.symbol
    · rw [if_pos hB] at h2
      exact absurd h2 (by simp)
    · rw [if_neg hB] at h2
      cases h3 : getPrice sg.trade.symbol with
      | none =>
        rw [h3] at h2
        simp at h2
      | some price =>
        rw [h3] at h2
        by_cases hz : price = 0
        · simp only [if_pos hz] at h2
          exact absurd h2 (by simp)
        · simp only [if_neg hz, Option.some.injEq] at h2
          exact ⟨round (price * (1 - 8/100) * 10 ^ 4), by rw [← h2]; rfl⟩

/-- C2 amended: every stop stored by `execute_signal` is a multiple of
`10⁻⁴`, and on such stops one `update_positions` tick sets the stop to
`max(stop, round(price × (1 − 0.12), 4))` — i.e. it is raised to the
*4-decimal rounding* of the candidate exactly when the unrounded candidate
exceeds it — so the stop never decreases, stays a multiple of `10⁻⁴`, is
unchanged when the candidate does not exceed it, and does not change on a
second tick at a flat or lower price. -/
theorem spec2proof_C2_amended :
    (∀ (p : ℚ) (tr : ExecutedTrade) (n : ℤ),
      tr.stop_loss = (n : ℚ) / 10 ^ 4 →
        (trailStop p tr).stop_loss
            = max tr.stop_loss (pyRound 4 (p * (1 - 12/100)))
        ∧ tr.stop_loss ≤ (trailStop p tr).stop_loss
        ∧ (∃ m : ℤ, (trailStop p tr).stop_loss = (m : ℚ) / 10 ^ 4)
        ∧ (p * (1 - 12/100) ≤ tr.stop_loss →
            (trailStop p tr).stop_loss = tr.stop_loss)
        ∧ (∀ p2, p2 ≤ p →
            (trailStop p2 (trailStop p tr)).stop_loss
              = (trailStop p tr).stop_loss))
    ∧ (∀ (st : TraderState) (getPrice : String → Option ℚ)
        (sg : TradeSignal) (st' : TraderState) (tr : ExecutedTrade),
        PolitibotTrader.execute_signal st getPrice sg = (st', some tr) →
          ∃ m : ℤ, tr.stop_loss = (m : ℚ) / 10 ^ 4) := by
  refine ⟨fun p tr n h => ⟨trailStop_stop_eq p tr n h, ?_,
    trailStop_quant p tr ⟨n, h⟩, ?_,
    fun p2 h2 => trailStop_flat p p2 tr n h h2⟩, execute_stop_quant⟩
  · rw [trailStop_stop_eq p tr n h]
    exact le_max_left _ _
  · intro hle
    unfold trailStop
    rw [if_neg (not_lt.mpr hle)]

/-- C2 counterexample: on the reachable position bought at 100 (stop 92), a
tick at price 110.00001 has candidate stop 96.8000088 > 92, but the stored
stop becomes `round(96.8000088, 4) = 96.8`, not the exact candidate
`price × (1 − 0.12)` the claim requires. -/
theorem spec2proof_C2_counterexample :
    (PolitibotTrader.update_positions ⟨[("NVDA", nvdaPos)], [], 100000, true⟩
        (fun _ => some (11000001/100000))).1.positions.map
        (fun e => e.2.stop_loss) = [484/5]
    ∧ (92 : ℚ) < (11000001/100000) * (1 - 12/100)
    ∧ (484/5 : ℚ) ≠ (11000001/100000) * (1 - 12/100) := by
  refine ⟨?_, by norm_num, by norm_num⟩
  unfold PolitibotTrader.update_positions
  norm_num [trailStop, effectivePrice, pyRound, round_eq, nvdaPos]

/-- Witness for the amended C2 at a concrete position and price. -/
theorem spec2proof_C2_witness :
    nvdaPos.stop_loss ≤ (trailStop 115 nvdaPos).stop_loss :=
  ((spec2proof_C2_amended).1 115 nvdaPos 920000 (by norm_num [nvdaPos])).2.1

/-! ## C6 — the cluster detector -/

lemma lookup_cons_self {γ : Type} (k : String) (v : γ)
    (rest : List (String × γ)) : ((k, v) :: rest).lookup k = some v := by
  simp [List.lookup]

lemma lookup_cons_ne {γ : Type} {s k : String} (v : γ)
    (rest : List (String × γ)) (h : s ≠ k) :
    ((k, v) :: rest).lookup s = rest.lookup s := by
  simp [List.lookup, beq_false_of_ne h]

lemma lookup_addToGroup (acc : List (String × List PoliticianTrade))
    (sym s : String) (t : PoliticianTrade) :
    (addToGroup acc sym t).lookup s =
      if s = sym then some (((acc.lookup sym).getD []) ++ [t])
      else acc.lookup s := by
  induction acc with
  | nil =>
    by_cases h : s = sym
    · subst h
      rw [if_pos rfl]
      show ((s, [t]) :: []).lookup s = _
      rw [lookup_cons_self]
      rfl
    · rw [if_neg h]
      show ((sym, [t]) :: []).lookup s = List.lookup s []
      rw [lookup_cons_ne _ _ h]
  | cons g rest ih =>
    obtain ⟨k, ts⟩ := g
    simp only [addToGroup]
    by_cases hk : k = sym
    · subst hk
      rw [if_pos rfl]
      by_cases hs : s = k
      · subst hs
        rw [if_pos rfl, lookup_cons_self, lookup_cons_self]
        rfl
      · rw [if_neg hs, lookup_cons_ne _ _ hs, lookup_cons_ne _ _ hs]
    · rw [if_neg hk]
      by_cases hs : s = k
      · subst hs
        have hns : ¬ s = sym := hk
        rw [if_neg hns, lookup_cons_self, lookup_cons_self]
      · rw [lookup_cons_ne _ _ hs, ih]
        by_cases h2 : s = sym
        · rw [if_pos h2, if_pos h2,
            lookup_cons_ne _ _ (fun hc : sym = k => hs (h2.trans hc))]
        · rw [if_neg h2, if_neg h2, lookup_cons_ne _ _ hs]

lemma lookup_groupFold (l : List PoliticianTrade)
    (acc : List (String × List PoliticianTrade)) (sym : String) :
    (l.foldl (fun acc t => addToGroup acc t.symbol t) acc).lookup sym =
      match acc.lookup sym with
      | some ts => some (ts ++ l.filter (fun t => t.symbol == sym))
      | none =>
        if l.filter (fun t => t.symbol == sym) = [] then none
        else some (l.filter (fun t => t.symbol == sym)) := by
  induction l generalizing acc with
  | nil =>
    cases h : acc.lookup sym <;> simp [h]
  | cons t ts ih =>
    simp only [List.foldl_cons]
    rw [ih]
    by_cases h : sym = t.symbol
    · have hfil : (t :: ts).filter (fun u => u.symbol == sym)
          = t :: ts.filter (fun u => u.symbol == sym) := by
        simp [List.filter_cons, ← h]
      rw [hfil, lookup_addToGroup, if_pos h, ← h]
      cases hacc : acc.lookup sym with
      | none => simp [hacc]
      | some l1 => simp [hacc]
    · have hfil : (t :: ts).filter (fun u => u.symbol == sym)
          = ts.filter (fun u => u.symbol == sym) := by
        have hne : (t.symbol == sym) = false :=
          beq_false_of_ne (fun hc => h hc.symm)
        simp [List.filter_cons, hne]
      rw [hfil, lookup_addToGroup, if_neg h]

lemma keys_addToGroup (acc : List (String × List PoliticianTrade))
    (sym : String) (t : PoliticianTrade) :
    (addToGroup acc sym t).map Prod.fst =
      if sym ∈ acc.map Prod.fst then acc.map Prod.fst
      else acc.map Prod.fst ++ [sym] := by
  induction acc with
  | nil => simp [addToGroup]
  | cons g rest ih =>
    obtain ⟨k, ts⟩ := g
    simp only [addToGroup]
    by_cases hk : k = sym
    · subst hk
      simp
    · have hmem_iff : sym ∈ ((k, ts) :: rest).map Prod.fst
          ↔ sym ∈ rest.map Prod.fst := by
        simp [Ne.symm hk]
      rw [if_neg hk]
      by_cases hmem : sym ∈ rest.map Prod.fst
      · rw [if_pos (hmem_iff.mpr hmem)]
        simp only [List.map_cons]
        rw [ih, if_pos hmem]
      · rw [if_neg (fun hc => hmem (hmem_iff.mp hc))]
        simp only [List.map_cons]
        rw [ih, if_neg hmem]
        rfl

lemma nodup_keys_groupFold (l : List PoliticianTrade)
    (acc : List (String × List PoliticianTrade))
    (hnd : (acc.map Prod.fst).Nodup) :
    ((l.foldl (fun acc t => addToGroup acc t.symbol t) acc).map
      Prod.fst).Nodup := by
  induction l generalizing acc with
  | nil => exact hnd
  | cons t ts ih =>
    simp only [List.foldl_cons]
    apply ih
    rw [keys_addToGroup]
    split_ifs with hmem
    · exact hnd
    · rw [List.nodup_append]
      refine ⟨hnd, List.nodup_singleton _, fun x hx hx2 => ?_⟩
      rw [List.mem_singleton] at hx2
      exact hmem (hx2 ▸ hx)

lemma lookup_eq_none_of_not_mem_keys {γ : Type}
    (l : List (String × γ)) (sym : String)
    (h : sym ∉ l.map Prod.fst) : l.lookup sym = none := by
  induction l with
  | nil => rfl
  | cons g rest ih =>
    simp only [List.map_cons, List.mem_cons] at h
    push_neg at h
    obtain ⟨k, v⟩ := g
    rw [lookup_cons_ne _ _ h.1, ih h.2]

lemma keys_filterMap_subset {γ : Type}
    (rest : List (String × List PoliticianTrade))
    (F : List PoliticianTrade → Option γ) :
    ((rest.filterMap (fun g => (F g.2).map (fun c => (g.1, c)))).map Prod.fst)
      ⊆ rest.map Prod.fst := by
  intro x hx
  obtain ⟨e, he, hee⟩ := List.mem_map.mp hx
  obtain ⟨g', hg', hfe⟩ := List.mem_filterMap.mp he
  obtain ⟨c, -, hc⟩ := Option.map_eq_some'.mp hfe
  have hx1 : g'.1 = x := by
    rw [← hc] at hee
    exact hee
  rw [← hx1]
  exact List.mem_map_of_mem Prod.fst hg'

lemma lookup_filterMap_opt {γ : Type}
    (gs : List (String × List PoliticianTrade))
    (F : List PoliticianTrade → Option γ)
    (hnd : (gs.map Prod.fst).Nodup) (sym : String) :
    (gs.filterMap (fun g => (F g.2).map (fun c => (g.1, c)))).lookup sym
      = (gs.lookup sym).bind F := by
  induction gs with
  | nil => rfl
  | cons g rest ih =>
    simp only [List.map_cons, List.nodup_cons] at hnd
    obtain ⟨hg, hnd'⟩ := hnd
    obtain ⟨k, ts⟩ := g
    simp only [List.filterMap_cons]
    by_cases hs : sym = k
    · subst hs
      cases hF : F ts with
      | none =>
        simp only [Option.map_none']
        rw [lookup_eq_none_of_not_mem_keys _ _
            (fun hm => hg (keys_filterMap_subset rest F hm)),
          lookup_cons_self]
        simp [hF]
      | some c =>
        simp only [Option.map_some']
        rw [lookup_cons_self, lookup_cons_self]
        simp [hF]
    · cases hF : F ts with
      | none =>
        simp only [Option.map_none']
        rw [ih hnd', lookup_cons_ne _ _ hs]
      | some c =>
        simp only [Option.map_some']
        rw [lookup_cons_ne _ _ hs, ih hnd', lookup_cons_ne _ _ hs]

/-- The purchase-type trades of one symbol the code builds a cluster from:
the filter of `detect_clusters` (`scoring/engine.py` line 181,
`t.transaction_date >= cutoff`) keeps every purchase dated on or after
`today − window` and applies NO upper bound, so future-dated trades
qualify too. -/
def inWindowPurchases (today window : ℤ) (sym : String)
    (trades : List PoliticianTrade) : List PoliticianTrade :=
  trades.filter
    (fun t => isPurchase t && today - window ≤ t.transaction_date
      && t.symbol == sym)

/-- The spec's window (§4.3), written from the spec's words: purchase-type
trades of one symbol with transaction date within `[now − window, now]` —
to be compared with the code's one-sided `inWindowPurchases`. -/
def specWindowPurchases (today window : ℤ) (sym : String)
    (trades : List PoliticianTrade) : List PoliticianTrade :=
  trades.filter
    (fun t => isPurchase t && today - window ≤ t.transaction_date
      && t.transaction_date ≤ today && t.symbol == sym)

lemma filter_recent_symbol (today window : ℤ)
    (trades : List PoliticianTrade) (sym : String) :
    (recentPurchases today window trades).filter (fun t => t.symbol == sym)
      = inWindowPurchases today window sym trades := by
  unfold recentPurchases inWindowPurchases
  rw [List.filter_filter]
  congr 1
  funext t
  rw [Bool.and_comm]

lemma detect_lookup_eq (today window : ℤ) (trades : List PoliticianTrade)
    (sym : String) :
    (ClusterDetector.detect_clusters today trades window).lookup sym
      = (if inWindowPurchases today window sym trades = [] then none
         else clusterInfoOf (inWindowPurchases today window sym trades)) := by
  have hnd := nodup_keys_groupFold (recentPurchases today window trades) []
    (by simp)
  have hmain : (ClusterDetector.detect_clusters today trades window).lookup sym
      = ((groupBySymbol (recentPurchases today window trades)).lookup
          sym).bind clusterInfoOf := by
    unfold ClusterDetector.detect_clusters
    exact lookup_filterMap_opt _ clusterInfoOf hnd sym
  have hgrp := lookup_groupFold (recentPurchases today window trades) [] sym
  rw [filter_recent_symbol] at hgrp
  rw [hmain]
  unfold groupBySymbol
  rw [hgrp]
  show (if inWindowPurchases today window sym trades = [] then none
        else some (inWindowPurchases today window sym trades)).bind
      clusterInfoOf = _
  by_cases hS : inWindowPurchases today window sym trades = []
  · rw [if_pos hS, if_pos hS]
    rfl
  · rw [if_neg hS, if_neg hS]
    rfl

set_option maxHeartbeats 1000000 in
/-- C6 (amended): a symbol has a cluster entry iff at least 2 distinct
politicians made purchase-type trades in it dated on or after
`now − window` — the code applies no upper bound on the transaction date, so
"inside the window" must be read one-sidedly (`engine.py` line 181); the
entry's bonus is `min(count × 8, 20) ∈ [0, 20]` where `count` is the number
of distinct purchasers, its total is the summed averaged amount of all
matching trades; `score_for_symbol` returns `(0, [])` for absent symbols and
`(bonus, reasons with the count, at most 5 names and the total)` otherwise. -/
theorem spec2proof_C6_amended (today window : ℤ) (trades : List PoliticianTrade)
    (sym : String) :
    (((ClusterDetector.detect_clusters today trades window).lookup
        sym).isSome
      ↔ 2 ≤ ((inWindowPurchases today window sym trades).map
               (fun t => t.politician)).toFinset.card)
    ∧ (∀ c, (ClusterDetector.detect_clusters today trades window).lookup sym
          = some c →
        c.count = ((inWindowPurchases today window sym trades).map
            (fun t => t.politician)).toFinset.card
        ∧ c.score = min ((c.count : ℚ) * 8) 20
        ∧ 0 ≤ c.score ∧ c.score ≤ 20
        ∧ c.total_amount = ((inWindowPurchases today window sym trades).map
            (fun t => t.avg_amount)).sum
        ∧ ClusterDetector.score_for_symbol sym
            (ClusterDetector.detect_clusters today trades window)
            = (c.score, clusterReasons sym c)
        ∧ (c.politicians.take 5).length ≤ 5)
    ∧ ((ClusterDetector.detect_clusters today trades window).lookup sym
          = none →
        ClusterDetector.score_for_symbol sym
          (ClusterDetector.detect_clusters today trades window) = (0, [])) := by
  have hcard : ((inWindowPurchases today window sym trades).map
      (fun t => t.politician)).toFinset.card
      = (uniquePoliticians (inWindowPurchases today window sym trades)).length :=
    List.card_toFinset _
  have hdet := detect_lookup_eq today window trades sym
  refine ⟨?_, ?_, ?_⟩
  · rw [hdet, hcard]
    by_cases hS : inWindowPurchases today window sym trades = []
    · rw [if_pos hS, hS]
      simp [uniquePoliticians]
    · rw [if_neg hS]
      unfold clusterInfoOf
      dsimp only
      by_cases h2 : 2 ≤ (uniquePoliticians
          (inWindowPurchases today window sym trades)).length
      · simp only [if_pos h2]
        simp [h2]
      · simp only [if_neg h2]
        simp [h2]
  · intro c hc
    rw [hdet] at hc
    by_cases hS : inWindowPurchases today window sym trades = []
    · rw [if_pos hS] at hc
      exact Option.noConfusion hc
    · rw [if_neg hS] at hc
      unfold clusterInfoOf at hc
      dsimp only at hc
      by_cases h2 : 2 ≤ (uniquePoliticians
          (inWindowPurchases today window sym trades)).length
      · rw [if_pos h2] at hc
        injection hc with hc
        subst hc
        refine ⟨by rw [hcard], rfl, ?_, min_le_right _ _, rfl, ?_, ?_⟩
        · apply le_min
          · positivity
          · norm_num
        · unfold ClusterDetector.score_for_symbol
          rw [hdet, if_neg hS]
          unfold clusterInfoOf
          dsimp only
          rw [if_pos h2]
        · exact List.length_take_le _ _
      · rw [if_neg h2] at hc
        exact Option.noConfusion hc
  · intro hc
    unfold ClusterDetector.score_for_symbol
    rw [hc]

def clusterTrades : List PoliticianTrade :=
  [⟨"Nancy Pelosi", "NVDA", "Purchase", 1000000, 1000000, 0, 0, false, ""⟩,
   ⟨"Dan Crenshaw", "NVDA", "Purchase", 500000, 500000, 0, 0, false, ""⟩]

/-- Two future-dated NVDA purchases: with "now" = day 0, both trades carry
transaction date 10, outside the spec's window `[now − 30, now]`. -/
def futureClusterTrades : List PoliticianTrade :=
  [⟨"Nancy Pelosi", "NVDA", "Purchase", 1000000, 1000000, 10, 0, false, ""⟩,
   ⟨"Dan Crenshaw", "NVDA", "Purchase", 500000, 500000, 10, 0, false, ""⟩]

/-- C6 counterexample: with "now" = day 0 and a 30-day window, two
future-dated (day 10) NVDA purchases by distinct politicians produce a
cluster entry, although not a single NVDA purchase has its transaction date
inside the spec's window `[now − window, now]` — `detect_clusters`
(`scoring/engine.py` line 181) checks only `transaction_date >= cutoff` and
applies no upper bound, so the claimed "iff ≥ 2 distinct politicians traded
inside the window" fails. -/
theorem spec2proof_C6_counterexample :
    ((ClusterDetector.detect_clusters 0 futureClusterTrades 30).lookup
        "NVDA").isSome = true
    ∧ specWindowPurchases 0 30 "NVDA" futureClusterTrades = [] := by
  constructor
  · decide
  · decide

/-- Witness for C6: two distinct politicians buying NVDA inside the code's
window produce a cluster entry whose sub-score obeys the stated formula and
bounds. -/
theorem spec2proof_C6_witness :
    ∃ c, (ClusterDetector.detect_clusters 0 clusterTrades 30).lookup "NVDA"
        = some c
      ∧ c.score = min ((c.count : ℚ) * 8) 20
      ∧ 0 ≤ c.score ∧ c.score ≤ 20
      ∧ ClusterDetector.score_for_symbol "NVDA"
          (ClusterDetector.detect_clusters 0 clusterTrades 30)
        = (c.score, clusterReasons "NVDA" c) := by
  have hcard : 2 ≤ ((inWindowPurchases 0 30 "NVDA" clusterTrades).map
      (fun t => t.politician)).toFinset.card := by decide
  obtain ⟨c, hc⟩ := Option.isSome_iff_exists.mp
    ((spec2proof_C6_amended 0 30 clusterTrades "NVDA").1.mpr hcard)
  have h2 := (spec2proof_C6_amended 0 30 clusterTrades "NVDA").2.1 c hc
  exact ⟨c, hc, h2.2.1, h2.2.2.1, h2.2.2.2.1, h2.2.2.2.2.2.1⟩

/-! ## C5 — per-pass deduplication by (symbol, transaction date) -/

lemma processTrade_cases (clusters : List (String × ClusterInfo))
    (hist : List PoliticianTrade) (st : GenState) (t : PoliticianTrade) :
    (isPurchase t = false ∧ processTrade clusters hist st t = st)
    ∨ (isPurchase t = true ∧ (t.symbol, t.transaction_date) ∈ st.seen
        ∧ processTrade clusters hist st t = st)
    ∨ (isPurchase t = true ∧ (t.symbol, t.transaction_date) ∉ st.seen
        ∧ ∃ E : List TradeSignal,
            processTrade clusters hist st t
              = ⟨st.signals ++ E, (t.symbol, t.transaction_date) :: st.seen⟩
            ∧ E.length ≤ 1
            ∧ ∀ s ∈ E, s.trade = t) := by
  by_cases hp : isPurchase t
  · by_cases hseen : (t.symbol, t.transaction_date) ∈ st.seen
    · refine Or.inr (Or.inl ⟨hp, hseen, ?_⟩)
      unfold processTrade
      rw [hp]
      simp only [Bool.not_true, Bool.false_eq_true, if_false]
      rw [if_pos hseen]
    · refine Or.inr (Or.inr ⟨hp, hseen, ?_⟩)
      unfold processTrade
      rw [hp]
      simp only [Bool.not_true, Bool.false_eq_true, if_false]
      rw [if_neg hseen]
      split_ifs <;>
        first
          | (refine ⟨[], ?_, ?_, ?_⟩ <;> simp <;> done)
          | (refine ⟨_, rfl, ?_, ?_⟩ <;> simp <;> done)
  · have hp' : isPurchase t = false := by
      simpa using hp
    refine Or.inl ⟨hp', ?_⟩
    unfold processTrade
    rw [hp']
    rfl

lemma foldl_seen_subset (clusters : List (String × ClusterInfo))
    (hist : List PoliticianTrade) :
    ∀ (trades : List PoliticianTrade) (st : GenState),
      st.seen ⊆ (trades.foldl (processTrade clusters hist) st).seen := by
  intro trades
  induction trades with
  | nil => intro st; exact fun x hx => hx
  | cons t ts ih =>
    intro st
    simp only [List.foldl_cons]
    refine subset_trans ?_ (ih (processTrade clusters hist st t))
    rcases processTrade_cases clusters hist st t with ⟨-, he⟩ | ⟨-, -, he⟩ |
      ⟨-, -, E, he, -, -⟩
    · rw [he]
      exact fun x hx => hx
    · rw [he]
      exact fun x hx => hx
    · rw [he]
      exact fun x hx => List.mem_cons_of_mem _ hx

/-- The Bool dedup-key test used in the C5 statements. -/
def keyMatch (sym : String) (d : ℤ) (s : TradeSignal) : Bool :=
  s.trade.symbol == sym && s.trade.transaction_date == d

lemma foldl_countP_key (clusters : List (String × ClusterInfo))
    (hist : List PoliticianTrade) (sym : String) (d : ℤ) :
    ∀ (trades : List PoliticianTrade) (st : GenState),
      st.signals.countP (keyMatch sym d) ≤ 1 →
      ((sym, d) ∉ st.seen → st.signals.countP (keyMatch sym d) = 0) →
      (trades.foldl (processTrade clusters hist) st).signals.countP
          (keyMatch sym d) ≤ 1
        ∧ ((sym, d) ∉ (trades.foldl (processTrade clusters hist) st).seen →
            (trades.foldl (processTrade clusters hist) st).signals.countP
              (keyMatch sym d) = 0) := by
  intro trades
  induction trades with
  | nil => exact fun st h1 h2 => ⟨h1, h2⟩
  | cons t ts ih =>
    intro st h1 h2
    simp only [List.foldl_cons]
    rcases processTrade_cases clusters hist st t with ⟨-, he⟩ | ⟨-, -, he⟩ |
      ⟨-, hseen, E, he, hlen, hE⟩
    · rw [he]; exact ih st h1 h2
    · rw [he]; exact ih st h1 h2
    · rw [he]
      by_cases hkey : (t.symbol, t.transaction_date) = (sym, d)
      · have hz : st.signals.countP (keyMatch sym d) = 0 :=
          h2 (fun hm => hseen (hkey ▸ hm))
        apply ih
        · rw [List.countP_append, hz, Nat.zero_add]
          calc E.countP (keyMatch sym d) ≤ E.length := List.countP_le_length _
            _ ≤ 1 := hlen
        · intro hmem
          exact absurd (hkey ▸ List.mem_cons_self _ _) hmem
      · have hzE : E.countP (keyMatch sym d) = 0 := by
          rw [List.countP_eq_zero]
          intro s hs
          rw [keyMatch, hE s hs]
          intro hcon
          apply hkey
          obtain ⟨hA, hB⟩ := Bool.and_eq_true_iff.mp hcon
          rw [Prod.mk.injEq]
          exact ⟨eq_of_beq hA, eq_of_beq hB⟩
        apply ih
        · rw [List.countP_append, hzE, Nat.add_zero]
          exact h1
        · intro hmem
          rw [List.countP_append, hzE, Nat.add_zero]
          exact h2 (fun hm => hmem (List.mem_cons_of_mem _ hm))

lemma foldl_find_key (clusters : List (String × ClusterInfo))
    (hist : List PoliticianTrade) :
    ∀ (trades : List PoliticianTrade) (st : GenState) (s : TradeSignal),
      s ∈ (trades.foldl (processTrade clusters hist) st).signals →
      s ∈ st.signals
      ∨ ((s.trade.symbol, s.trade.transaction_date) ∉ st.seen
          ∧ trades.find? (fun t => isPurchase t
              && t.symbol == s.trade.symbol
              && t.transaction_date == s.trade.transaction_date)
            = some s.trade) := by
  intro trades
  induction trades with
  | nil => exact fun st s hs => Or.inl hs
  | cons t ts ih =>
    intro st s hs
    simp only [List.foldl_cons] at hs
    rcases ih (processTrade clusters hist st t) s hs with hmem | ⟨hnot, hfind⟩
    · rcases processTrade_cases clusters hist st t with ⟨hp, he⟩ | ⟨hp, hseen, he⟩ |
        ⟨hp, hseen, E, he, -, hE⟩
      · rw [he] at hmem
        exact Or.inl hmem
      · rw [he] at hmem
        exact Or.inl hmem
      · rw [he] at hmem
        simp only [List.mem_append] at hmem
        rcases hmem with hmem | hmem
        · exact Or.inl hmem
        · have htr := hE s hmem
          refine Or.inr ⟨htr ▸ hseen, ?_⟩
          rw [List.find?_cons_of_pos]
          · rw [htr]
          · rw [htr, hp]
            simp
    · have hnot' : (s.trade.symbol, s.trade.transaction_date) ∉ st.seen := by
        rcases processTrade_cases clusters hist st t with ⟨-, he⟩ | ⟨-, -, he⟩ |
          ⟨-, -, E, he, -, -⟩
        · rw [he] at hnot
          exact hnot
        · rw [he] at hnot
          exact hnot
        · rw [he] at hnot
          exact fun hm => hnot (List.mem_cons_of_mem _ hm)
      refine Or.inr ⟨hnot', ?_⟩
      rw [List.find?_cons_of_neg, hfind]
      intro hcon
      obtain ⟨hAB, hC⟩ := Bool.and_eq_true_iff.mp hcon
      obtain ⟨hA, hB⟩ := Bool.and_eq_true_iff.mp hAB
      have hkey : (t.symbol, t.transaction_date)
          = (s.trade.symbol, s.trade.transaction_date) := by
        rw [Prod.mk.injEq]
        exact ⟨eq_of_beq hB, eq_of_beq hC⟩
      rcases processTrade_cases clusters hist st t with ⟨hp, -⟩ | ⟨-, hseen, he⟩ |
        ⟨-, -, E, he, -, -⟩
      · rw [hp] at hA
        exact Bool.false_ne_true hA
      · rw [he] at hnot
        exact hnot (hkey ▸ hseen)
      · rw [he] at hnot
        exact hnot (hkey ▸ List.mem_cons_self _ _)

/-! ## Sorting lemmas for generate_signals -/

lemma insertSig_perm (s : TradeSignal) (l : List TradeSignal) :
    List.Perm (insertSig s l) (s :: l) := by
  induction l with
  | nil => exact List.Perm.refl _
  | cons t ts ih =>
    unfold insertSig
    split_ifs
    · exact (ih.cons t).trans (List.Perm.swap s t ts)
    · exact List.Perm.refl _

lemma sortSignals_perm (l : List TradeSignal) : List.Perm (sortSignals l) l := by
  induction l with
  | nil => exact List.Perm.refl _
  | cons s ss ih =>
    exact (insertSig_perm s (sortSignals ss)).trans (ih.cons s)

lemma insertSig_sorted (s : TradeSignal) (l : List TradeSignal)
    (h : List.Sorted (fun a b => b.total_score ≤ a.total_score) l) :
    List.Sorted (fun a b => b.total_score ≤ a.total_score) (insertSig s l) := by
  induction l with
  | nil => simp [insertSig]
  | cons t ts ih =>
    unfold insertSig
    rw [List.sorted_cons] at h
    obtain ⟨ht, hts⟩ := h
    split_ifs with hc
    · refine List.sorted_cons.mpr ⟨?_, ih hts⟩
      intro b hb
      rcases List.mem_cons.mp ((insertSig_perm s ts).mem_iff.mp hb) with rfl | hb'
      · exact le_of_lt hc
      · exact ht b hb'
    · push_neg at hc
      refine List.sorted_cons.mpr ⟨?_, List.sorted_cons.mpr ⟨ht, hts⟩⟩
      intro b hb
      rcases List.mem_cons.mp hb with rfl | hb'
      · exact hc
      · exact le_trans (ht b hb') hc

lemma sortSignals_sorted (l : List TradeSignal) :
    List.Sorted (fun a b => b.total_score ≤ a.total_score) (sortSignals l) := by
  induction l with
  | nil => simp [sortSignals]
  | cons s ss ih => exact insertSig_sorted s (sortSignals ss) ih

lemma filter_insertSig_of_ne (s : TradeSignal) (l : List TradeSignal) (q : ℚ)
    (h : ¬ s.total_score = q) :
    (insertSig s l).filter (fun x => x.total_score == q)
      = l.filter (fun x => x.total_score == q) := by
  induction l with
  | nil => simp [insertSig, List.filter_cons, h]
  | cons t ts ih =>
    unfold insertSig
    split_ifs with hc
    · simp only [List.filter_cons, ih]
    · simp [List.filter_cons, h]

lemma filter_insertSig_of_eq (s : TradeSignal) (l : List TradeSignal) (q : ℚ)
    (hq : s.total_score = q) :
    (insertSig s l).filter (fun x => x.total_score == q)
      = s :: l.filter (fun x => x.total_score == q) := by
  induction l with
  | nil => simp [insertSig, List.filter_cons, hq]
  | cons t ts ih =>
    unfold insertSig
    split_ifs with hc
    · have htq : ¬ t.total_score = q := by
        rw [← hq]
        exact hc.ne'
      simp [List.filter_cons, htq, ih]
    · simp [List.filter_cons, hq]

lemma sortSignals_filter (l : List TradeSignal) (q : ℚ) :
    (sortSignals l).filter (fun x => x.total_score == q)
      = l.filter (fun x => x.total_score == q) := by
  induction l with
  | nil => rfl
  | cons s ss ih =>
    unfold sortSignals
    by_cases hq : s.total_score = q
    · rw [filter_insertSig_of_eq s _ q hq, ih, List.filter_cons]
      simp [hq]
    · rw [filter_insertSig_of_ne s _ q hq, ih, List.filter_cons]
      simp [hq]

/-- C5: in one pass `generate_signals` emits at most one signal per
`(symbol, transaction date)` key, and every emitted signal for a key comes
from the first purchase-type trade with that key in feed order. -/
theorem spec2proof_C5 (today : ℤ) (trades hist : List PoliticianTrade)
    (sym : String) (d : ℤ) :
    (SignalEngine.generate_signals today trades hist).countP (keyMatch sym d)
        ≤ 1
    ∧ ∀ s ∈ SignalEngine.generate_signals today trades hist,
        s.trade.symbol = sym → s.trade.transaction_date = d →
        trades.find? (fun t => isPurchase t && t.symbol == sym
            && t.transaction_date == d) = some s.trade := by
  have hperm := sortSignals_perm (emittedSignals today trades hist)
  constructor
  · unfold SignalEngine.generate_signals
    rw [hperm.countP_eq]
    unfold emittedSignals
    exact (foldl_countP_key _ hist sym d trades ⟨[], []⟩ (by simp)
      (fun _ => by simp)).1
  · intro s hs hsym hdate
    unfold SignalEngine.generate_signals at hs
    have hs' : s ∈ emittedSignals today trades hist := hperm.mem_iff.mp hs
    unfold emittedSignals at hs'
    rcases foldl_find_key _ hist trades ⟨[], []⟩ s hs' with h | ⟨-, hfind⟩
    · exact absurd h (List.not_mem_nil s)
    · rw [hsym, hdate] at hfind
      exact hfind

/-! ## C4 — tier thresholds, minimum score and ordering -/

lemma tradeScore_int (t : PoliticianTrade) :
    ∃ m : ℤ, (TradeScorer.score t).1 = (m : ℚ) ∧ 0 ≤ m := by
  unfold TradeScorer.score
  by_cases hp : isPurchase t
  · rw [hp]
    simp only [Bool.not_true, Bool.false_eq_true, if_false]
    have h1 : ∃ m : ℤ, (if 1000000 ≤ t.avg_amount then (15:ℚ)
        else if 250000 ≤ t.avg_amount then 10
        else if 50000 ≤ t.avg_amount then 5 else 2) = (m:ℚ)
        ∧ 0 ≤ m ∧ m ≤ 15 := by
      split_ifs <;>
        first
          | (refine ⟨15, ?_, ?_, ?_⟩ <;> norm_num <;> done)
          | (refine ⟨10, ?_, ?_, ?_⟩ <;> norm_num <;> done)
          | (refine ⟨5, ?_, ?_, ?_⟩ <;> norm_num <;> done)
          | (refine ⟨2, ?_, ?_, ?_⟩ <;> norm_num <;> done)
    obtain ⟨m1, e1, hm1a, hm1b⟩ := h1
    rw [e1]
    have h2 : ∃ m : ℤ, (if t.is_option = true then (m1:ℚ) + 8 else (m1:ℚ))
        = (m:ℚ) ∧ m1 ≤ m ∧ m ≤ m1 + 8 := by
      split_ifs
      · exact ⟨m1 + 8, by push_cast; ring, by omega, by omega⟩
      · exact ⟨m1, rfl, by omega, by omega⟩
    obtain ⟨m2, e2, hm2a, hm2b⟩ := h2
    rw [e2]
    have h3 : ∃ m : ℤ, (if t.is_suspiciously_late = true then (m2:ℚ) + 7
        else if t.is_late = true then (m2:ℚ) + 4 else (m2:ℚ)) = (m:ℚ)
        ∧ m2 ≤ m ∧ m ≤ m2 + 7 := by
      split_ifs
      · exact ⟨m2 + 7, by push_cast; ring, by omega, by omega⟩
      · exact ⟨m2 + 4, by push_cast; ring, by omega, by omega⟩
      · exact ⟨m2, rfl, by omega, by omega⟩
    obtain ⟨m3, e3, hm3a, hm3b⟩ := h3
    rw [e3]
    have h4 : ∃ m : ℤ, (if t.committee ≠ "" ∧ t.symbol ∈
          COMMITTEE_SECTOR_MAP t.committee then (m3:ℚ) + 10 else (m3:ℚ))
        = (m:ℚ) ∧ m3 ≤ m ∧ m ≤ m3 + 10 := by
      split_ifs
      · exact ⟨m3 + 10, by push_cast; ring, by omega, by omega⟩
      · exact ⟨m3, rfl, by omega, by omega⟩
    obtain ⟨m4, e4, hm4a, hm4b⟩ := h4
    rw [e4]
    refine ⟨m4, ?_, by omega⟩
    rw [min_eq_left]
    exact_mod_cast (by omega : m4 ≤ 40)
  · have hp' : isPurchase t = false := by simpa using hp
    rw [hp']
    exact ⟨0, rfl, le_refl 0⟩

lemma clusterScore_int (today window : ℤ) (trades : List PoliticianTrade)
    (sym : String) :
    ∃ m : ℤ, (ClusterDetector.score_for_symbol sym
        (ClusterDetector.detect_clusters today trades window)).1 = (m:ℚ)
      ∧ 0 ≤ m := by
  unfold ClusterDetector.score_for_symbol
  rw [detect_lookup_eq]
  split_ifs with hS
  · exact ⟨0, rfl, le_refl 0⟩
  · unfold clusterInfoOf
    dsimp only
    split_ifs with h2
    · refine ⟨(min ((uniquePoliticians
        (inWindowPurchases today window sym trades)).length * 8) 20 : ℕ),
        ?_, by positivity⟩
      push_cast
      rfl
    · exact ⟨0, rfl, le_refl 0⟩

lemma totalScore_form (today : ℤ) (hist : List PoliticianTrade)
    (t : PoliticianTrade) :
    ∃ k : ℤ, PoliticianScorer.score t.politician hist
        + (TradeScorer.score t).1
        + (ClusterDetector.score_for_symbol t.symbol
            (ClusterDetector.detect_clusters today hist)).1 = (k : ℚ) / 20
      ∧ k % 20 ≠ 19 := by
  obtain ⟨n, hn, -, -, hmod⟩ := polScore_form t.politician hist
  obtain ⟨mt, hmt, -⟩ := tradeScore_int t
  obtain ⟨mc, hmc, -⟩ := clusterScore_int today 30 hist t.symbol
  refine ⟨n + 20 * (mt + mc), ?_, by omega⟩
  rw [hn, hmt, hmc]
  push_cast
  ring

lemma round1_ge_iff (k B : ℤ) (hmod : k % 20 ≠ 19) :
    ((B : ℚ) ≤ pyRound 1 ((k : ℚ) / 20)) ↔ ((B : ℚ) ≤ (k : ℚ) / 20) := by
  unfold pyRound
  have harg : (k:ℚ)/20 * 10 ^ (1:ℕ) = (k:ℚ)/2 := by
    rw [pow_one]
    ring
  rw [harg, round_eq]
  have hfloor : ⌊(k:ℚ)/2 + 1/2⌋ = ⌊((k + 1 : ℤ):ℚ)/2⌋ := by
    congr 1
    push_cast
    ring
  rw [hfloor, pow_one]
  rw [le_div_iff₀ (by norm_num : (0:ℚ) < 10),
    le_div_iff₀ (by norm_num : (0:ℚ) < 20)]
  have hBf : ((B * 10 : ℤ) : ℚ) = (B:ℚ) * 10 := by
    push_cast
    ring
  have hBk : ((B * 20 : ℤ) : ℚ) = (B:ℚ) * 20 := by
    push_cast
    ring
  rw [← hBf, ← hBk, Int.cast_le, Int.cast_le, Int.le_floor,
    le_div_iff₀ (by norm_num : (0:ℚ) < 2)]
  have h2 : ((B * 10 : ℤ):ℚ) * 2 = ((B * 20 : ℤ):ℚ) := by
    push_cast
    ring
  rw [h2, Int.cast_le]
  constructor
  · intro h
    omega
  · intro h
    omega

/-- The tier contract an emitted signal must satisfy (claim C4): minimum
total score 40 and recommendation/urgency/size matching the total exactly at
the 80 and 65 boundaries. -/
def tierOk (s : TradeSignal) : Prop :=
  40 ≤ s.total_score
  ∧ (80 ≤ s.total_score → s.recommendation = "STRONG BUY"
      ∧ s.urgency = "IMMEDIATE" ∧ s.suggested_position_size = "FULL")
  ∧ (65 ≤ s.total_score → s.total_score < 80 → s.recommendation = "BUY"
      ∧ s.urgency = "TODAY" ∧ s.suggested_position_size = "HALF")
  ∧ (s.total_score < 65 → s.recommendation = "WATCH"
      ∧ s.urgency = "THIS_WEEK" ∧ s.suggested_position_size = "QUARTER")

lemma tierOk_SB (t : PoliticianTrade) (T ps ts cs : ℚ) (R : List String)
    (k : ℤ) (hk : T = (k : ℚ) / 20) (hmod : k % 20 ≠ 19) (h80 : 80 ≤ T) :
    tierOk ⟨t, pyRound 1 T, ps, ts, cs, "STRONG BUY", R, "IMMEDIATE", "FULL"⟩ := by
  have hb40 := round1_ge_iff k 40 hmod
  have hb65 := round1_ge_iff k 65 hmod
  have hb80 := round1_ge_iff k 80 hmod
  push_cast at hb40 hb65 hb80
  subst hk
  refine ⟨hb40.mpr (by linarith), fun _ => ⟨rfl, rfl, rfl⟩, ?_, ?_⟩
  · intro _ hlt
    exact absurd (hb80.mpr h80) (not_le.mpr hlt)
  · intro hlt
    exact absurd (hb65.mpr (by linarith)) (not_le.mpr hlt)

lemma tierOk_BUY (t : PoliticianTrade) (T ps ts cs : ℚ) (R : List String)
    (k : ℤ) (hk : T = (k : ℚ) / 20) (hmod : k % 20 ≠ 19)
    (h65 : 65 ≤ T) (h80 : ¬ 80 ≤ T) :
    tierOk ⟨t, pyRound 1 T, ps, ts, cs, "BUY", R, "TODAY", "HALF"⟩ := by
  have hb40 := round1_ge_iff k 40 hmod
  have hb65 := round1_ge_iff k 65 hmod
  have hb80 := round1_ge_iff k 80 hmod
  push_cast at hb40 hb65 hb80
  subst hk
  refine ⟨hb40.mpr (by linarith), ?_, fun _ _ => ⟨rfl, rfl, rfl⟩, ?_⟩
  · intro h80'
    exact absurd (hb80.mp h80') h80
  · intro hlt
    exact absurd (hb65.mpr h65) (not_le.mpr hlt)

lemma tierOk_WATCH (t : PoliticianTrade) (T ps ts cs : ℚ) (R : List String)
    (k : ℤ) (hk : T = (k : ℚ) / 20) (hmod : k % 20 ≠ 19)
    (h40 : 40 ≤ T) (h65 : ¬ 65 ≤ T) :
    tierOk ⟨t, pyRound 1 T, ps, ts, cs, "WATCH", R, "THIS_WEEK", "QUARTER"⟩ := by
  have hb40 := round1_ge_iff k 40 hmod
  have hb65 := round1_ge_iff k 65 hmod
  have hb80 := round1_ge_iff k 80 hmod
  push_cast at hb40 hb65 hb80
  subst hk
  refine ⟨hb40.mpr h40, ?_, ?_, fun _ => ⟨rfl, rfl, rfl⟩⟩
  · intro h80'
    exact absurd (by linarith [hb80.mp h80'] : (65 : ℚ) ≤ (k : ℚ) / 20) h65
  · intro h65' _
    exact absurd (hb65.mp h65') h65

lemma processTrade_tierOk (today : ℤ) (hist : List PoliticianTrade)
    (st : GenState) (t : PoliticianTrade) (s : TradeSignal)
    (hs : s ∈ (processTrade (ClusterDetector.detect_clusters today hist)
        hist st t).signals) :
    s ∈ st.signals ∨ tierOk s := by
  by_cases hp : isPurchase t
  · by_cases hseen : (t.symbol, t.transaction_date) ∈ st.seen
    · unfold processTrade at hs
      rw [hp] at hs
      simp only [Bool.not_true, Bool.false_eq_true, if_false] at hs
      rw [if_pos hseen] at hs
      exact Or.inl hs
    · unfold processTrade at hs
      rw [hp] at hs
      simp only [Bool.not_true, Bool.false_eq_true, if_false] at hs
      rw [if_neg hseen] at hs
      obtain ⟨k, hk, hmod⟩ := totalScore_form today hist t
      split_ifs at hs with h40 h80 hpA h65 hpB h40b hpC
      · exact Or.inl hs
      · rcases List.mem_append.mp hs with h | h
        · exact Or.inl h
        · rw [List.mem_singleton] at h
          subst h
          exact Or.inr (tierOk_SB _ _ _ _ _ _ _ hk hmod h80)
      · rcases List.mem_append.mp hs with h | h
        · exact Or.inl h
        · rw [List.mem_singleton] at h
          subst h
          exact Or.inr (tierOk_SB _ _ _ _ _ _ _ hk hmod h80)
      · rcases List.mem_append.mp hs with h | h
        · exact Or.inl h
        · rw [List.mem_singleton] at h
          subst h
          exact Or.inr (tierOk_BUY _ _ _ _ _ _ _ hk hmod h65 h80)
      · rcases List.mem_append.mp hs with h | h
        · exact Or.inl h
        · rw [List.mem_singleton] at h
          subst h
          exact Or.inr (tierOk_BUY _ _ _ _ _ _ _ hk hmod h65 h80)
      · rcases List.mem_append.mp hs with h | h
        · exact Or.inl h
        · rw [List.mem_singleton] at h
          subst h
          exact Or.inr (tierOk_WATCH _ _ _ _ _ _ _ hk hmod h40b h65)
      · rcases List.mem_append.mp hs with h | h
        · exact Or.inl h
        · rw [List.mem_singleton] at h
          subst h
          exact Or.inr (tierOk_WATCH _ _ _ _ _ _ _ hk hmod h40b h65)
      · exact Or.inl hs
  · unfold processTrade at hs
    have hp' : isPurchase t = false := by simpa using hp
    rw [hp'] at hs
    exact Or.inl hs

lemma emitted_tierOk (today : ℤ) (trades hist : List PoliticianTrade) :
    ∀ s ∈ emittedSignals today trades hist, tierOk s := by
  suffices h : ∀ (ts : List PoliticianTrade) (st : GenState),
      (∀ s ∈ st.signals, tierOk s) →
      ∀ s ∈ (ts.foldl (processTrade
          (ClusterDetector.detect_clusters today hist) hist) st).signals,
        tierOk s by
    intro s hs
    exact h trades ⟨[], []⟩ (by simp) s hs
  intro ts
  induction ts with
  | nil => exact fun st h s hs => h s hs
  | cons t ts ih =>
    intro st hst s hs
    simp only [List.foldl_cons] at hs
    refine ih _ ?_ s hs
    intro s' hs'
    rcases processTrade_tierOk today hist st t s' hs' with h | h
    · exact hst s' h
    · exact h

/-- C4: every signal returned by generate_signals has total score at least
40 and its recommendation, urgency and suggested position size match its
total score at the 80/65 boundaries (`tierOk`); the returned list is sorted
by descending total score; and ties keep their production order (for each
score value, filtering the sorted output equals filtering the pre-sort
emission list). -/
theorem spec2proof_C4 (today : ℤ) (trades hist : List PoliticianTrade) :
    (∀ s ∈ SignalEngine.generate_signals today trades hist, tierOk s)
    ∧ List.Sorted (fun a b => b.total_score ≤ a.total_score)
        (SignalEngine.generate_signals today trades hist)
    ∧ (∀ q : ℚ, (SignalEngine.generate_signals today trades
          hist).filter (fun x => x.total_score == q)
        = (emittedSignals today trades hist).filter
            (fun x => x.total_score == q)) := by
  refine ⟨?_, sortSignals_sorted _, fun q => sortSignals_filter _ q⟩
  intro s hs
  exact emitted_tierOk today trades hist s
    ((sortSignals_perm (emittedSignals today trades hist)).mem_iff.mp hs)

/-! ## Concrete evaluation used by the C4 and C5 witnesses -/

/-- A purchase by a profiled politician: a mega-trade (exactly $1,000,000 on
both bounds), filed 100 days late, no option and no committee. -/
def t5 : PoliticianTrade :=
  { politician := "Nancy Pelosi", symbol := "NVDA", trade_type := "Purchase",
    amount_low := 1000000, amount_high := 1000000, transaction_date := 0,
    filing_delay_days := 100, is_option := false, committee := "" }

/-- The signal `generate_signals` produces for `t5` alone:
total 32.2 + 22 + 0 = 54.2 → WATCH tier. -/
def sig5 : TradeSignal :=
  { trade := t5, total_score := 271/5, politician_score := 161/5,
    trade_score := 22, cluster_score := 0, recommendation := "WATCH",
    reasons := ["Kjent politiker: Nancy Pelosi"], urgency := "THIS_WEEK",
    suggested_position_size := "QUARTER" }

lemma pol5 : PoliticianScorer.score t5.politician [t5] = 161/5 := by
  unfold PoliticianScorer.score
  have h1 : historical_alpha t5.politician = some (92/100) := by
    unfold historical_alpha
    rw [if_pos (show t5.politician = "Nancy Pelosi" from rfl)]
  have h2 : lateFilings t5.politician [t5] = 1 := by decide
  simp only [h1, h2]
  norm_num [min_def]

lemma tr5 : TradeScorer.score t5 = (22, []) := by
  unfold TradeScorer.score
  simp only [show isPurchase t5 = true from by decide,
    show t5.avg_amount = 1000000 from by decide,
    show t5.is_suspiciously_late = true from by decide,
    show t5.is_option = false from rfl,
    show t5.committee = "" from rfl,
    Bool.not_true, Bool.false_eq_true, if_false]
  norm_num [min_def]

lemma det5 : ClusterDetector.detect_clusters 0 [t5] = [] := by decide

lemma cl5 : ClusterDetector.score_for_symbol t5.symbol [] = (0, []) := rfl

lemma gen5_eval : SignalEngine.generate_signals 0 [t5] [t5] = [sig5] := by
  unfold SignalEngine.generate_signals emittedSignals
  rw [det5]
  simp only [List.foldl_cons, List.foldl_nil]
  unfold processTrade
  dsimp only
  rw [show isPurchase t5 = true from by decide]
  simp only [Bool.not_true, Bool.false_eq_true, if_false, List.not_mem_nil,
    if_neg (List.not_mem_nil (t5.symbol, t5.transaction_date))]
  rw [pol5, tr5, cl5]
  dsimp only
  rw [if_neg (show ¬((161:ℚ)/5 + 22 + 0 < 40) from by norm_num),
    if_neg (show ¬((80:ℚ) ≤ 161/5 + 22 + 0) from by norm_num),
    if_neg (show ¬((65:ℚ) ≤ 161/5 + 22 + 0) from by norm_num),
    if_pos (show (40:ℚ) ≤ 161/5 + 22 + 0 from by norm_num),
    if_pos (show (0:ℚ) < 161/5 from by norm_num)]
  simp only [sortSignals, insertSig, List.nil_append, List.cons.injEq,
    and_true]
  unfold sig5
  rw [TradeSignal.mk.injEq]
  refine ⟨rfl, ?_, ?_, ?_, ?_, rfl, ?_, rfl, rfl⟩
  · norm_num [pyRound, round_eq]
  · norm_num [pyRound, round_eq]
  · norm_num [pyRound, round_eq]
  · norm_num [pyRound, round_eq]
  · decide

/-- Witness for C4 at the concrete input `[t5]`: the produced signal is in
the 40–65 band and gets the WATCH tier. -/
theorem spec2proof_C4_witness :
    sig5 ∈ SignalEngine.generate_signals 0 [t5] [t5]
    ∧ 40 ≤ sig5.total_score ∧ sig5.recommendation = "WATCH" := by
  have hmem : sig5 ∈ SignalEngine.generate_signals 0 [t5] [t5] := by
    rw [gen5_eval]
    exact List.mem_singleton_self _
  have h := (spec2proof_C4 0 [t5] [t5]).1 sig5 hmem
  exact ⟨hmem, h.1, (h.2.2.2 (show sig5.total_score < 65 from by
    norm_num [sig5])).1⟩

/-- Witness for C5 at the concrete input `[t5]`: the unique emitted
NVDA/day-0 signal traces back to the first matching purchase in the feed. -/
theorem spec2proof_C5_witness :
    [t5].find? (fun t => isPurchase t && t.symbol == "NVDA"
      && t.transaction_date == (0 : ℤ)) = some sig5.trade := by
  have hmem : sig5 ∈ SignalEngine.generate_signals 0 [t5] [t5] := by
    rw [gen5_eval]
    exact List.mem_singleton_self _
  exact (spec2proof_C5 0 [t5] [t5] "NVDA" 0).2 sig5 hmem rfl rfl
